import Mathlib

set_option maxHeartbeats 1000000

/-!
Shallow embedding of `loot_table_selector` (`src/loot_table_selector/src/main.rs`):
the line-oriented loot-table parsing loop inside `main` (lines 131-174) and the
two selection functions `pick_random_uniform` (lines 79-86) and
`pick_random_weighted` (lines 98-116).

Randomness is made explicit: each selector takes the value drawn by the random
source as an argument (`pick_random_uniform` the sampled index, uniform on
`[0, len)`; `pick_random_weighted` the sampled point, uniform on
`[0, total_weight)`, exactly as rand's `Uniform` / `WeightedIndex` produce).

Machine integers (the `u32` weights) are `Nat` with explicit `2 ^ 32` bounds
where overflow matters.  The source reports every parse-time or selection-time
failure by aborting the process (the `panic` macro, or `unwrap` on an `Err`);
it never returns a recoverable error value.  Results are therefore modelled
with three-way outcome types: `ok` for a normal return, `panic` for a process
abort (tagged with the corresponding error class of the spec's taxonomy in §7,
so that each panic site can be named), and `err` for a returned recoverable
error value — a constructor the embedded source never produces, present so
that the spec's recoverable-error statements can be expressed and compared
against what the code actually does.
-/

/-- A loot entry.  The source stores `Box<dyn Loot>` values which hold either
a `WeightedLoot` struct (`name : String`, `weight : u32`, lines 44-47) or a
bare `String` name (the `impl Loot for String` at lines 59-67).  The `u32`
weight is a `Nat`; entries built by the parser always carry `weight < 2 ^ 32`. -/
inductive Loot where
  | weighted (name : String) (weight : Nat) : Loot
  | unweighted (name : String) : Loot
deriving DecidableEq

/-- Name carried by an entry (either variant). -/
def Loot.name : Loot → String
  | .weighted nm _ => nm
  | .unweighted nm => nm

/-- Whether the entry is the `WeightedLoot` variant. -/
def Loot.isWeighted : Loot → Bool
  | .weighted _ _ => true
  | .unweighted _ => false

/-- Weight carried by a `WeightedLoot` entry (0 for the other variant). -/
def Loot.weight : Loot → Nat
  | .weighted _ w => w
  | .unweighted _ => 0

/-- The parsed table: the `format` string variable and the `loot_table`
vector of `main` (lines 131-132). -/
structure LootTable where
  format : String
  entries : List Loot
deriving DecidableEq

/-- Parse-time error classes of the spec's §7 taxonomy.  Each names one
panic site of the parsing loop in `main`:
`invalidFormatHeader` is the panic at line 151, `malformedWeightedLine` the
panic at line 159, `invalidWeight` the `unwrap` on `FromStr::from_str` at
line 165. -/
inductive ParseError where
  | invalidFormatHeader
  | malformedWeightedLine
  | invalidWeight
deriving DecidableEq

/-- Outcome of parsing.  `ok` is a completed table; `panic e` is a process
abort at the panic site classified by `e`; `err e` is a returned recoverable
error value, which the source never produces (present so that recoverable
failure can be stated and refuted). -/
inductive PResult where
  | ok (t : LootTable)
  | err (e : ParseError)
  | panic (e : ParseError)
deriving DecidableEq

/-- Selection-time panic sites.  `emptyRange` is rand's panic in
`Uniform::from(0..0)` when the table is empty (line 81); `indexOutOfBounds`
is the Rust slice-indexing panic, unreachable because the sampled value is
always in range; `downcastString` and `downcastWeighted` are the two explicit
panic arms on failed `Any` downcasts (lines 84 and 107); `noItem` and
`allZeroWeights` are the `WeightedIndex::new` errors `NoItem` and
`AllWeightsZero` hit by the `unwrap` at line 114; `weightOverflow` is `u32`
addition overflow while `WeightedIndex::new` sums the weights (a panic in a
debug build; a release build would wrap instead — either way not a
recoverable value, and the claims below are profile-independent). -/
inductive SelectPanic where
  | emptyRange
  | indexOutOfBounds
  | downcastString
  | downcastWeighted
  | noItem
  | allZeroWeights
  | weightOverflow
deriving DecidableEq

/-- Selection-time recoverable error values of the spec's §7 taxonomy.  The
source never returns these (it panics instead); the constructor exists so the
spec's recoverable-error statements can be expressed. -/
inductive SelectError where
  | emptyTable
  | allZeroWeights
  | weightOverflow
deriving DecidableEq

/-- Outcome of one selection call: a returned name, a returned recoverable
error value (never produced by the source), or a process abort. -/
inductive SResult where
  | ok (s : String)
  | err (e : SelectError)
  | panic (p : SelectPanic)
deriving DecidableEq

/-- Rust `line.starts_with('#')` (line 142). -/
def startsWithHash (s : String) : Bool :=
  match s.toList with
  | [] => false
  | c :: _ => c = '#'

/-- Rust `str::split` with the two-character literal separator, on
character lists: scan left to right, each non-overlapping occurrence of
`!!` ends the current piece.  The result is always non-empty. -/
def splitOnBB : List Char → List (List Char)
  | [] => [[]]
  | '!' :: '!' :: rest => [] :: splitOnBB rest
  | c :: rest =>
    match splitOnBB rest with
    | [] => [[c]]
    | t :: ts => (c :: t) :: ts

/-- Rust `line.split("!!").collect::<Vec<&str>>()` (line 157). -/
def splitBangBang (s : String) : List String :=
  (splitOnBB s.toList).map (fun cs => String.mk cs)

/-- Rust `u32::from_str` (the `FromStr::from_str(tokens[1])` at line 165):
an optional leading `+` sign, then one or more ASCII digits, with the value
inside the `u32` range.  A `-` sign, empty input, non-digit characters, and
out-of-range values all fail (`none`). -/
def parseU32 (s : String) : Option Nat :=
  let cs :=
    match s.toList with
    | '+' :: rest => rest
    | l => l
  if cs.isEmpty then none
  else if cs.all Char.isDigit then
    let v := cs.foldl (fun a c => a * 10 + (c.toNat - 48)) 0
    if v < 2 ^ 32 then some v else none
  else none

/-- The parsing loop of `main` (lines 135-174), rendered as structural
recursion over the list of lines.  A line is `none` when `reader.lines()`
yields an `Err` (skipped at line 137); `some l` is a successfully read line,
trailing newline already stripped.  `fmt` is the `format` variable, empty
until the header has been seen (`format.is_empty()` is rendered as
`fmt = ""`).  Entries are produced in input order; each panic site of the
source becomes `PResult.panic` tagged with its taxonomy class, aborting the
whole parse, so no partial table is ever returned. -/
def parseFrom : List (Option String) → String → PResult
  | [], fmt => .ok ⟨fmt, []⟩
  | none :: rest, fmt => parseFrom rest fmt
  | some line :: rest, fmt =>
    if startsWithHash line then parseFrom rest fmt
    else if fmt = "" then
      if line = "Weighted" ∨ line = "Uniform" then parseFrom rest line
      else .panic .invalidFormatHeader
    else if fmt = "Weighted" then
      let tokens := splitBangBang line
      if tokens.length = 2 then
        match parseU32 (tokens.getD 1 "") with
        | none => .panic .invalidWeight
        | some w =>
          match parseFrom rest fmt with
          | .ok t => .ok ⟨t.format, .weighted (tokens.getD 0 "") w :: t.entries⟩
          | r => r
      else .panic .malformedWeightedLine
    else if fmt = "Uniform" then
      match parseFrom rest fmt with
      | .ok t => .ok ⟨t.format, .unweighted line :: t.entries⟩
      | r => r
    else parseFrom rest fmt

/-- Parsing a whole input: the loop started with `format` empty. -/
def parse (lines : List (Option String)) : PResult :=
  parseFrom lines ""

/-- First non-comment readable line together with the lines after it
(the line that the `format.is_empty()` branch of `main` examines). -/
def firstEff : List (Option String) → Option (String × List (Option String))
  | [] => none
  | none :: rest => firstEff rest
  | some l :: rest =>
    if startsWithHash l then firstEff rest else some (l, rest)

/-- `pick_random_uniform` (lines 79-86) as a function of the sampled index:
`Uniform::from(0..items.len())` panics when the range is empty, otherwise
`sample` returns `idx` uniform on `[0, len)` and the drawn item is downcast
to `String`; a non-`String` item hits the explicit downcast panic at line 84. -/
def pick_random_uniform (items : List Loot) (idx : Nat) : SResult :=
  if items.isEmpty then .panic .emptyRange
  else
    match items.get? idx with
    | some (.unweighted s) => .ok s
    | some (.weighted _ _) => .panic .downcastString
    | none => .panic .indexOutOfBounds

/-- The downcast loop of `pick_random_weighted` (lines 104-112): every item
must downcast to `WeightedLoot`, the first failure panics (modelled as
`none`); on success the parallel `choices`/`weights` vectors are returned as
a list of (name, weight) pairs. -/
def collectWeighted : List Loot → Option (List (String × Nat))
  | [] => some []
  | .weighted nm w :: rest => (collectWeighted rest).map (fun ps => (nm, w) :: ps)
  | .unweighted _ :: _ => none

/-- Index chosen by `WeightedIndex::sample` for a draw `x` uniform on
`[0, total_weight)`: the cumulative-weight search (`partition_point` over the
cumulative sums) — entry `i` is chosen exactly when
`w_0 + ... + w_(i-1) <= x < w_0 + ... + w_i`. -/
def weightedIdx : List Nat → Nat → Nat
  | [], _ => 0
  | w :: ws, x => if x < w then 0 else weightedIdx ws (x - w) + 1

/-- `pick_random_weighted` (lines 98-116) as a function of the uniform draw
`x` on `[0, total_weight)`.  After the downcast loop, `WeightedIndex::new`
fails with `NoItem` on an empty weight list and with `AllWeightsZero` on a
zero total — both reach the `unwrap` at line 114 and abort; summing the
`u32` weights overflows when the true total reaches `2 ^ 32`. -/
def pick_random_weighted (items : List Loot) (x : Nat) : SResult :=
  match collectWeighted items with
  | none => .panic .downcastWeighted
  | some pairs =>
    if pairs.isEmpty then .panic .noItem
    else if 2 ^ 32 ≤ (pairs.map Prod.snd).sum then .panic .weightOverflow
    else if (pairs.map Prod.snd).sum = 0 then .panic .allZeroWeights
    else if x < (pairs.map Prod.snd).sum then
      .ok ((pairs.getD (weightedIdx (pairs.map Prod.snd) x) ("", 0)).1)
    else .panic .indexOutOfBounds

/-! Helper lemmas about cumulative weights and the `WeightedIndex` search. -/

/-- Cumulative weight of the first `k` entries. -/
def csum : List Nat → Nat → Nat
  | _, 0 => 0
  | [], _ + 1 => 0
  | w :: ws, k + 1 => w + csum ws k

@[simp] theorem csum_zero (ws : List Nat) : csum ws 0 = 0 := by
  cases ws <;> rfl

@[simp] theorem csum_cons_succ (w : Nat) (ws : List Nat) (k : Nat) :
    csum (w :: ws) (k + 1) = w + csum ws k := rfl

theorem csum_le_sum (ws : List Nat) (k : Nat) : csum ws k ≤ ws.sum := by
  induction ws generalizing k with
  | nil => cases k <;> simp [csum]
  | cons w ws ih =>
    cases k with
    | zero => simp
    | succ k =>
      simp only [csum_cons_succ, List.sum_cons]
      exact Nat.add_le_add_left (ih k) w

theorem csum_succ_getD (ws : List Nat) (i : Nat) (h : i < ws.length) :
    csum ws (i + 1) = csum ws i + ws.getD i 0 := by
  induction ws generalizing i with
  | nil => simp at h
  | cons w ws ih =>
    cases i with
    | zero => simp
    | succ i =>
      have hi : i < ws.length := by simpa using h
      simp only [csum_cons_succ, List.getD_cons_succ, ih i hi]
      omega

theorem weightedIdx_eq_iff (ws : List Nat) (i x : Nat) (h : i < ws.length) :
    weightedIdx ws x = i ↔ csum ws i ≤ x ∧ x < csum ws (i + 1) := by
  induction ws generalizing i x with
  | nil => simp at h
  | cons w ws ih =>
    cases i with
    | zero =>
      by_cases hx : x < w
      · simp only [weightedIdx, if_pos hx, csum_zero, csum_cons_succ, true_iff]
        omega
      · simp only [weightedIdx, if_neg hx, csum_zero, csum_cons_succ]
        omega
    | succ i =>
      have hi : i < ws.length := by simpa using h
      by_cases hx : x < w
      · simp only [weightedIdx, if_pos hx, csum_cons_succ]
        omega
      · simp only [weightedIdx, if_neg hx, Nat.add_right_cancel_iff, ih i (x - w) hi,
          csum_cons_succ]
        omega

theorem weightedIdx_lt (ws : List Nat) (x : Nat) (h : x < ws.sum) :
    weightedIdx ws x < ws.length := by
  induction ws generalizing x with
  | nil => simp at h
  | cons w ws ih =>
    simp only [weightedIdx, List.length_cons]
    by_cases hx : x < w
    · simp [hx]
    · simp only [if_neg hx, Nat.add_lt_add_iff_right]
      apply ih
      simp only [List.sum_cons] at h
      omega

theorem weightedIdx_ne_of_zero (ws : List Nat) (i x : Nat) (h : i < ws.length)
    (hz : ws.getD i 0 = 0) : weightedIdx ws x ≠ i := by
  intro he
  have := (weightedIdx_eq_iff ws i x h).mp he
  rw [csum_succ_getD ws i h, hz] at this
  omega

/-! Helper lemmas for counting draws. -/

theorem countP_mem_congr {α : Type} (l : List α) (p q : α → Bool)
    (h : ∀ x ∈ l, p x = q x) : l.countP p = l.countP q := by
  induction l with
  | nil => rfl
  | cons a l ih =>
    simp only [List.countP_cons]
    rw [ih (fun x hx => h x (List.mem_cons_of_mem a hx)), h a (List.mem_cons_self a l)]

theorem countP_range_interval (a : Nat) : ∀ (n b : Nat), b ≤ n →
    (List.range n).countP (fun x => decide (a ≤ x ∧ x < b)) = b - a := by
  intro n
  induction n with
  | zero =>
    intro b hb
    have : b = 0 := by omega
    simp [this]
  | succ n ih =>
    intro b hb
    rw [List.range_succ, List.countP_append]
    have hsing : [n].countP (fun x => decide (a ≤ x ∧ x < b))
        = if a ≤ n ∧ n < b then 1 else 0 := by
      by_cases hcase : a ≤ n ∧ n < b
      · simp [List.countP_cons, hcase]
      · simp [List.countP_cons, hcase]
    rw [hsing]
    by_cases hbn : b ≤ n
    · rw [ih b hbn, if_neg (by omega)]
      omega
    · have hb1 : b = n + 1 := by omega
      subst hb1
      have hc : (List.range n).countP (fun x => decide (a ≤ x ∧ x < n + 1))
          = (List.range n).countP (fun x => decide (a ≤ x ∧ x < n)) := by
        apply countP_mem_congr
        intro x hx
        have : x < n := List.mem_range.mp hx
        simp only [decide_eq_decide]
        omega
      rw [hc, ih n (Nat.le_refl n)]
      by_cases ha : a ≤ n
      · rw [if_pos (by omega)]
        omega
      · rw [if_neg (by omega)]
        omega

/-- Over the whole draw space `[0, total)`, the `WeightedIndex` search selects
index `i` for exactly `ws.getD i 0` draws. -/
theorem countP_weightedIdx (ws : List Nat) (i : Nat) (h : i < ws.length) :
    (List.range ws.sum).countP (fun x => decide (weightedIdx ws x = i))
      = ws.getD i 0 := by
  have hcongr : (List.range ws.sum).countP (fun x => decide (weightedIdx ws x = i))
      = (List.range ws.sum).countP (fun x => decide (csum ws i ≤ x ∧ x < csum ws (i + 1))) := by
    apply countP_mem_congr
    intro x _
    simp only [decide_eq_decide]
    exact weightedIdx_eq_iff ws i x h
  rw [hcongr, countP_range_interval (csum ws i) ws.sum (csum ws (i + 1)) (csum_le_sum ws (i + 1)),
    csum_succ_getD ws i h]
  omega

theorem countP_range_getD (l : List String) (s : String) :
    (List.range l.length).countP (fun x => decide (l.getD x "" = s))
      = l.countP (fun nm => decide (nm = s)) := by
  induction l with
  | nil => simp
  | cons a l ih =>
    simp only [List.length_cons, List.range_succ_eq_map, List.countP_cons, List.countP_map,
      Function.comp_def, List.getD_cons_succ, List.getD_cons_zero, ih]

/-! Step lemmas unfolding one iteration of the parsing loop. -/

theorem parseFrom_nil (fmt : String) : parseFrom [] fmt = .ok ⟨fmt, []⟩ := rfl

theorem parseFrom_none (rest : List (Option String)) (fmt : String) :
    parseFrom (none :: rest) fmt = parseFrom rest fmt := rfl

theorem parseFrom_comment (l : String) (rest : List (Option String)) (fmt : String)
    (h : startsWithHash l = true) :
    parseFrom (some l :: rest) fmt = parseFrom rest fmt := by
  simp [parseFrom, h]

theorem parseFrom_header (l : String) (rest : List (Option String))
    (h1 : startsWithHash l = false) (h2 : l = "Weighted" ∨ l = "Uniform") :
    parseFrom (some l :: rest) "" = parseFrom rest l := by
  simp [parseFrom, h1, h2]

theorem parseFrom_header_bad (l : String) (rest : List (Option String))
    (h1 : startsWithHash l = false) (h2 : ¬(l = "Weighted" ∨ l = "Uniform")) :
    parseFrom (some l :: rest) "" = .panic .invalidFormatHeader := by
  simp [parseFrom, h1, h2]

theorem parseFrom_weighted_step (l : String) (rest : List (Option String))
    (h1 : startsWithHash l = false) :
    parseFrom (some l :: rest) "Weighted" =
      (if (splitBangBang l).length = 2 then
        match parseU32 ((splitBangBang l).getD 1 "") with
        | none => .panic .invalidWeight
        | some w =>
          match parseFrom rest "Weighted" with
          | .ok t => .ok ⟨t.format, .weighted ((splitBangBang l).getD 0 "") w :: t.entries⟩
          | r => r
      else .panic .malformedWeightedLine) := by
  simp [parseFrom, h1]

theorem parseFrom_uniform_step (l : String) (rest : List (Option String))
    (h1 : startsWithHash l = false) :
    parseFrom (some l :: rest) "Uniform" =
      (match parseFrom rest "Uniform" with
       | .ok t => .ok ⟨t.format, .unweighted l :: t.entries⟩
       | r => r) := by
  simp [parseFrom, h1]

theorem parseFrom_other (l : String) (rest : List (Option String)) (fmt : String)
    (h1 : startsWithHash l = false) (h2 : fmt ≠ "")
    (h3 : fmt ≠ "Weighted") (h4 : fmt ≠ "Uniform") :
    parseFrom (some l :: rest) fmt = parseFrom rest fmt := by
  simp [parseFrom, h1, h2, h3, h4]

/-! Structural lemmas about the parsing loop. -/

theorem parseFrom_format (lines : List (Option String)) :
    ∀ (fmt : String) (t : LootTable), fmt ≠ "" → parseFrom lines fmt = .ok t →
      t.format = fmt := by
  induction lines with
  | nil =>
    intro fmt t _ h
    rw [parseFrom_nil] at h
    injection h with h
    rw [← h]
  | cons line rest ih =>
    intro fmt t hf h
    cases line with
    | none =>
      rw [parseFrom_none] at h
      exact ih fmt t hf h
    | some l =>
      by_cases h1 : startsWithHash l = true
      · rw [parseFrom_comment l rest fmt h1] at h
        exact ih fmt t hf h
      · have h1f : startsWithHash l = false := by simpa using h1
        by_cases hW : fmt = "Weighted"
        · subst hW
          rw [parseFrom_weighted_step l rest h1f] at h
          by_cases h2 : (splitBangBang l).length = 2
          · rw [if_pos h2] at h
            cases hu : parseU32 ((splitBangBang l).getD 1 "") with
            | none => rw [hu] at h; exact PResult.noConfusion h
            | some w =>
              rw [hu] at h
              cases hr : parseFrom rest "Weighted" with
              | ok t2 =>
                rw [hr] at h
                injection h with h
                rw [← h]
                exact ih "Weighted" t2 (by decide) hr
              | err e => rw [hr] at h; exact PResult.noConfusion h
              | panic e => rw [hr] at h; exact PResult.noConfusion h
          · rw [if_neg h2] at h
            exact PResult.noConfusion h
        · by_cases hU : fmt = "Uniform"
          · subst hU
            rw [parseFrom_uniform_step l rest h1f] at h
            cases hr : parseFrom rest "Uniform" with
            | ok t2 =>
              rw [hr] at h
              injection h with h
              rw [← h]
              exact ih "Uniform" t2 (by decide) hr
            | err e => rw [hr] at h; exact PResult.noConfusion h
            | panic e => rw [hr] at h; exact PResult.noConfusion h
          · rw [parseFrom_other l rest fmt h1f hf hW hU] at h
            exact ih fmt t hf h

theorem parseFrom_no_header_panic (lines : List (Option String)) :
    ∀ fmt : String, fmt ≠ "" →
      parseFrom lines fmt ≠ .panic .invalidFormatHeader := by
  induction lines with
  | nil =>
    intro fmt _ h
    exact PResult.noConfusion h
  | cons line rest ih =>
    intro fmt hf
    cases line with
    | none =>
      rw [parseFrom_none]
      exact ih fmt hf
    | some l =>
      by_cases h1 : startsWithHash l = true
      · rw [parseFrom_comment l rest fmt h1]
        exact ih fmt hf
      · have h1f : startsWithHash l = false := by simpa using h1
        by_cases hW : fmt = "Weighted"
        · subst hW
          rw [parseFrom_weighted_step l rest h1f]
          by_cases h2 : (splitBangBang l).length = 2
          · rw [if_pos h2]
            cases hu : parseU32 ((splitBangBang l).getD 1 "") with
            | none =>
              intro h
              injection h with h
              exact ParseError.noConfusion h
            | some w =>
              cases hr : parseFrom rest "Weighted" with
              | ok t2 => intro h; exact PResult.noConfusion h
              | err e => intro h; exact PResult.noConfusion h
              | panic e =>
                intro h
                have he : e = ParseError.invalidFormatHeader := by simpa using h
                rw [he] at hr
                exact ih "Weighted" (by decide) hr
          · rw [if_neg h2]
            intro h
            injection h with h
            exact ParseError.noConfusion h
        · by_cases hU : fmt = "Uniform"
          · subst hU
            rw [parseFrom_uniform_step l rest h1f]
            cases hr : parseFrom rest "Uniform" with
            | ok t2 => intro h; exact PResult.noConfusion h
            | err e => intro h; exact PResult.noConfusion h
            | panic e =>
              intro h
              have he : e = ParseError.invalidFormatHeader := by simpa using h
              rw [he] at hr
              exact ih "Uniform" (by decide) hr
          · rw [parseFrom_other l rest fmt h1f hf hW hU]
            exact ih fmt hf

theorem parseFrom_never_err (lines : List (Option String)) :
    ∀ (fmt : String) (e : ParseError), parseFrom lines fmt ≠ .err e := by
  induction lines with
  | nil =>
    intro fmt e h
    exact PResult.noConfusion h
  | cons line rest ih =>
    intro fmt e
    cases line with
    | none =>
      rw [parseFrom_none]
      exact ih fmt e
    | some l =>
      by_cases h1 : startsWithHash l = true
      · rw [parseFrom_comment l rest fmt h1]
        exact ih fmt e
      · have h1f : startsWithHash l = false := by simpa using h1
        by_cases hE : fmt = ""
        · subst hE
          by_cases h2 : l = "Weighted" ∨ l = "Uniform"
          · rw [parseFrom_header l rest h1f h2]
            exact ih l e
          · rw [parseFrom_header_bad l rest h1f h2]
            intro h
            exact PResult.noConfusion h
        · by_cases hW : fmt = "Weighted"
          · subst hW
            rw [parseFrom_weighted_step l rest h1f]
            by_cases h2 : (splitBangBang l).length = 2
            · rw [if_pos h2]
              cases hu : parseU32 ((splitBangBang l).getD 1 "") with
              | none => intro h; exact PResult.noConfusion h
              | some w =>
                cases hr : parseFrom rest "Weighted" with
                | ok t2 => intro h; exact PResult.noConfusion h
                | err e2 => exact absurd hr (ih "Weighted" e2)
                | panic e2 => intro h; exact PResult.noConfusion h
            · rw [if_neg h2]
              intro h
              exact PResult.noConfusion h
          · by_cases hU : fmt = "Uniform"
            · subst hU
              rw [parseFrom_uniform_step l rest h1f]
              cases hr : parseFrom rest "Uniform" with
              | ok t2 => intro h; exact PResult.noConfusion h
              | err e2 => exact absurd hr (ih "Uniform" e2)
              | panic e2 => intro h; exact PResult.noConfusion h
            · rw [parseFrom_other l rest fmt h1f hE hW hU]
              exact ih fmt e

theorem weighted_malformed (l : String) (rest : List (Option String))
    (h1 : startsWithHash l = false) (h2 : (splitBangBang l).length ≠ 2) :
    parseFrom (some l :: rest) "Weighted" = .panic .malformedWeightedLine := by
  rw [parseFrom_weighted_step l rest h1, if_neg h2]

theorem weighted_invalid_weight (l : String) (rest : List (Option String))
    (h1 : startsWithHash l = false) (h2 : (splitBangBang l).length = 2)
    (h3 : parseU32 ((splitBangBang l).getD 1 "") = none) :
    parseFrom (some l :: rest) "Weighted" = .panic .invalidWeight := by
  rw [parseFrom_weighted_step l rest h1, if_pos h2, h3]

theorem parseFrom_filter (lines : List (Option String)) :
    ∀ fmt : String, parseFrom lines fmt = parseFrom (lines.filter Option.isSome) fmt := by
  induction lines with
  | nil => intro fmt; rfl
  | cons line rest ih =>
    intro fmt
    cases line with
    | none =>
      rw [parseFrom_none, List.filter_cons_of_neg (by simp)]
      exact ih fmt
    | some l =>
      rw [List.filter_cons_of_pos (by simp)]
      by_cases h1 : startsWithHash l = true
      · rw [parseFrom_comment _ _ _ h1, parseFrom_comment _ _ _ h1]
        exact ih fmt
      · have h1f : startsWithHash l = false := by simpa using h1
        by_cases hE : fmt = ""
        · subst hE
          by_cases h2 : l = "Weighted" ∨ l = "Uniform"
          · rw [parseFrom_header _ _ h1f h2, parseFrom_header _ _ h1f h2]
            exact ih l
          · rw [parseFrom_header_bad _ _ h1f h2, parseFrom_header_bad _ _ h1f h2]
        · by_cases hW : fmt = "Weighted"
          · subst hW
            rw [parseFrom_weighted_step _ _ h1f, parseFrom_weighted_step _ _ h1f,
              ih "Weighted"]
          · by_cases hU : fmt = "Uniform"
            · subst hU
              rw [parseFrom_uniform_step _ _ h1f, parseFrom_uniform_step _ _ h1f,
                ih "Uniform"]
            · rw [parseFrom_other _ _ _ h1f hE hW hU, parseFrom_other _ _ _ h1f hE hW hU]
              exact ih fmt

theorem parseFrom_homogeneous (lines : List (Option String)) :
    ∀ (fmt : String) (t : LootTable), parseFrom lines fmt = .ok t →
      (t.format = "Weighted" → ∀ e ∈ t.entries, e.isWeighted = true) ∧
      (t.format = "Uniform" → ∀ e ∈ t.entries, e.isWeighted = false) := by
  induction lines with
  | nil =>
    intro fmt t h
    injection h with h
    subst h
    constructor <;> intro _ e he <;> simp at he
  | cons line rest ih =>
    intro fmt t h
    cases line with
    | none =>
      rw [parseFrom_none] at h
      exact ih fmt t h
    | some l =>
      by_cases h1 : startsWithHash l = true
      · rw [parseFrom_comment _ _ _ h1] at h
        exact ih fmt t h
      · have h1f : startsWithHash l = false := by simpa using h1
        by_cases hE : fmt = ""
        · subst hE
          by_cases h2 : l = "Weighted" ∨ l = "Uniform"
          · rw [parseFrom_header _ _ h1f h2] at h
            exact ih l t h
          · rw [parseFrom_header_bad _ _ h1f h2] at h
            exact PResult.noConfusion h
        · by_cases hW : fmt = "Weighted"
          · subst hW
            rw [parseFrom_weighted_step _ _ h1f] at h
            by_cases h2 : (splitBangBang l).length = 2
            · rw [if_pos h2] at h
              cases hu : parseU32 ((splitBangBang l).getD 1 "") with
              | none => rw [hu] at h; exact PResult.noConfusion h
              | some w =>
                rw [hu] at h
                cases hr : parseFrom rest "Weighted" with
                | ok t2 =>
                  rw [hr] at h
                  injection h with h
                  subst h
                  have hfmt2 : t2.format = "Weighted" :=
                    parseFrom_format rest "Weighted" t2 (by decide) hr
                  have iht2 := ih "Weighted" t2 hr
                  dsimp only
                  constructor
                  · intro _ e he
                    rcases List.mem_cons.mp he with he1 | he2
                    · rw [he1]; rfl
                    · exact iht2.1 hfmt2 e he2
                  · intro hc
                    rw [hfmt2] at hc
                    exact absurd hc (by decide)
                | err e => rw [hr] at h; exact PResult.noConfusion h
                | panic e => rw [hr] at h; exact PResult.noConfusion h
            · rw [if_neg h2] at h
              exact PResult.noConfusion h
          · by_cases hU : fmt = "Uniform"
            · subst hU
              rw [parseFrom_uniform_step _ _ h1f] at h
              cases hr : parseFrom rest "Uniform" with
              | ok t2 =>
                rw [hr] at h
                injection h with h
                subst h
                have hfmt2 : t2.format = "Uniform" :=
                  parseFrom_format rest "Uniform" t2 (by decide) hr
                have iht2 := ih "Uniform" t2 hr
                dsimp only
                constructor
                · intro hc
                  rw [hfmt2] at hc
                  exact absurd hc (by decide)
                · intro _ e he
                  rcases List.mem_cons.mp he with he1 | he2
                  · rw [he1]; rfl
                  · exact iht2.2 hfmt2 e he2
              | err e => rw [hr] at h; exact PResult.noConfusion h
              | panic e => rw [hr] at h; exact PResult.noConfusion h
            · rw [parseFrom_other _ _ _ h1f hE hW hU] at h
              exact ih fmt t h

theorem collectWeighted_of_all (items : List Loot)
    (h : ∀ e ∈ items, e.isWeighted = true) :
    collectWeighted items = some (items.map (fun e => (e.name, e.weight))) := by
  induction items with
  | nil => rfl
  | cons a items ih =>
    have ha := h a (List.mem_cons_self a items)
    cases a with
    | unweighted nm => simp [Loot.isWeighted] at ha
    | weighted nm w =>
      have := ih (fun e he => h e (List.mem_cons_of_mem _ he))
      simp [collectWeighted, this, Loot.name, Loot.weight]

theorem pick_uniform_eval (items : List Loot) :
    ∀ idx : Nat, (∀ e ∈ items, e.isWeighted = false) → idx < items.length →
      pick_random_uniform items idx = .ok ((items.map Loot.name).getD idx "") := by
  induction items with
  | nil => intro idx _ h; simp at h
  | cons a items ih =>
    intro idx hall h
    cases idx with
    | zero =>
      have ha := hall a (List.mem_cons_self a items)
      cases a with
      | weighted nm w => simp [Loot.isWeighted] at ha
      | unweighted nm => rfl
    | succ idx =>
      have hrec := ih idx (fun e he => hall e (List.mem_cons_of_mem a he)) (by simpa using h)
      have hne : items ≠ [] := by
        intro he
        rw [he] at h
        simp at h
      calc pick_random_uniform (a :: items) (idx + 1)
          = pick_random_uniform items idx := by
            unfold pick_random_uniform
            cases items with
            | nil => exact absurd rfl hne
            | cons b l => rfl
        _ = .ok ((items.map Loot.name).getD idx "") := hrec
        _ = .ok (((a :: items).map Loot.name).getD (idx + 1) "") := by
            simp

theorem pick_uniform_countP (items : List Loot)
    (hall : ∀ e ∈ items, e.isWeighted = false) (s : String) :
    (List.range items.length).countP
        (fun x => decide (pick_random_uniform items x = .ok s))
      = (items.map Loot.name).countP (fun nm => decide (nm = s)) := by
  have hlen : (items.map Loot.name).length = items.length := List.length_map _ _
  have h1 : (List.range items.length).countP
        (fun x => decide (pick_random_uniform items x = .ok s))
      = (List.range items.length).countP
        (fun x => decide ((items.map Loot.name).getD x "" = s)) := by
    apply countP_mem_congr
    intro x hx
    have hxl : x < items.length := List.mem_range.mp hx
    rw [pick_uniform_eval items x hall hxl]
    simp only [decide_eq_decide, SResult.ok.injEq]
  rw [h1, ← hlen, countP_range_getD]

theorem getD_mem_of_lt : ∀ (l : List String) (i : Nat), i < l.length → l.getD i "" ∈ l := by
  intro l
  induction l with
  | nil => intro i h; simp at h
  | cons a l ih =>
    intro i h
    cases i with
    | zero => simp
    | succ i =>
      have hmem := ih i (by simpa using h)
      rw [List.getD_cons_succ]
      exact List.mem_cons_of_mem a hmem

theorem pick_weighted_eval (items : List Loot) (pairs : List (String × Nat)) (x : Nat)
    (hc : collectWeighted items = some pairs)
    (hpos : 0 < (pairs.map Prod.snd).sum)
    (hbound : (pairs.map Prod.snd).sum < 2 ^ 32)
    (hx : x < (pairs.map Prod.snd).sum) :
    pick_random_weighted items x
      = .ok ((pairs.getD (weightedIdx (pairs.map Prod.snd) x) ("", 0)).1) := by
  unfold pick_random_weighted
  rw [hc]
  dsimp only
  have hne : pairs.isEmpty = false := by
    cases pairs with
    | nil => simp at hpos
    | cons p ps => rfl
  rw [hne, if_neg (by decide), if_neg (by omega), if_neg (by omega), if_pos hx]

theorem pick_weighted_all_zero (items : List Loot) (pairs : List (String × Nat)) (x : Nat)
    (hc : collectWeighted items = some pairs) (hne : pairs ≠ [])
    (hz : ∀ p ∈ pairs, p.2 = 0) :
    pick_random_weighted items x = .panic .allZeroWeights := by
  have hsum : (pairs.map Prod.snd).sum = 0 := by
    apply List.sum_eq_zero
    intro w hw
    rcases List.mem_map.mp hw with ⟨p, hp, rfl⟩
    exact hz p hp
  have hne2 : pairs.isEmpty = false := by
    cases pairs with
    | nil => exact absurd rfl hne
    | cons p ps => rfl
  unfold pick_random_weighted
  rw [hc]
  dsimp only
  rw [hne2, if_neg (by decide), if_neg (by omega), if_pos hsum]

theorem firstEff_none (rest : List (Option String)) :
    firstEff (none :: rest) = firstEff rest := rfl

theorem firstEff_comment (l : String) (rest : List (Option String))
    (h : startsWithHash l = true) :
    firstEff (some l :: rest) = firstEff rest := by
  simp [firstEff, h]

theorem firstEff_data (l : String) (rest : List (Option String))
    (h : startsWithHash l = false) :
    firstEff (some l :: rest) = some (l, rest) := by
  simp [firstEff, h]

/-! Claim theorems. -/

/-- C1 counterexample: the claim that for every Weighted-mode table with a
positive total weight, selection returns the name of entry `i` with
probability `weight_i / sum`, fails when the total leaves the `u32` range:
for the table with weights `2 ^ 31` and `2 ^ 31` the total is positive, yet
selection panics on the weight-sum overflow (a release build would instead
wrap the `u32` total to 0 and panic on `AllWeightsZero`) and never returns
either entry, so neither name is returned with probability `1/2`. -/
theorem weighted_total_overflow_counterexample :
    0 < 2 ^ 31 + 2 ^ 31
    ∧ pick_random_weighted [Loot.weighted "a" (2 ^ 31), Loot.weighted "b" (2 ^ 31)] 0
        = .panic .weightOverflow := by
  exact ⟨by decide, by decide⟩

/-- C1 (amended): for every Weighted-mode table (every item downcasts to
`WeightedLoot`, collected as `pairs`) whose total weight is positive and
within the `u32` range, selection succeeds on every draw `x < total`,
returning the name of the entry found by the cumulative-weight search, whose
index is in range; over the whole draw space `[0, total)` each index `i` is
selected for exactly `weight_i` draws, i.e. with probability
`weight_i / total`; and an entry of weight 0 is selected on no draw at all. -/
theorem weighted_select_distribution (items : List Loot) (pairs : List (String × Nat))
    (hc : collectWeighted items = some pairs)
    (hpos : 0 < (pairs.map Prod.snd).sum)
    (hbound : (pairs.map Prod.snd).sum < 2 ^ 32) :
    (∀ x : Nat, x < (pairs.map Prod.snd).sum →
        pick_random_weighted items x
          = .ok ((pairs.getD (weightedIdx (pairs.map Prod.snd) x) ("", 0)).1)
        ∧ weightedIdx (pairs.map Prod.snd) x < pairs.length)
    ∧ (∀ i : Nat, i < pairs.length →
        (List.range (pairs.map Prod.snd).sum).countP
            (fun x => decide (weightedIdx (pairs.map Prod.snd) x = i))
          = (pairs.map Prod.snd).getD i 0)
    ∧ (∀ i : Nat, i < pairs.length → (pairs.map Prod.snd).getD i 0 = 0 →
        ∀ x : Nat, weightedIdx (pairs.map Prod.snd) x ≠ i) := by
  refine ⟨fun x hx => ⟨pick_weighted_eval items pairs x hc hpos hbound hx, ?_⟩,
    fun i hi => countP_weightedIdx (pairs.map Prod.snd) i (by simpa using hi),
    fun i hi hz x => weightedIdx_ne_of_zero (pairs.map Prod.snd) i x (by simpa using hi) hz⟩
  have hb := weightedIdx_lt (pairs.map Prod.snd) x hx
  simpa using hb

/-- C1 witness: concrete instance of the amended distribution theorem, on the
table `a!!1`, `b!!2`: draw 1 selects `b`, and index 1 is selected on exactly
2 of the 3 draws. -/
theorem weighted_select_distribution_witness :
    pick_random_weighted [Loot.weighted "a" 1, Loot.weighted "b" 2] 1 = .ok "b"
    ∧ (List.range 3).countP (fun x => decide (weightedIdx [1, 2] x = 1)) = 2 := by
  have h := weighted_select_distribution [Loot.weighted "a" 1, Loot.weighted "b" 2]
    [("a", 1), ("b", 2)] rfl (by decide) (by decide)
  exact ⟨(h.1 1 (by decide)).1, h.2.1 1 (by decide)⟩

/-- C2: for every Uniform-mode table (every entry a bare name) and every
sampled index `idx < n`, selection returns the name of the entry at `idx`;
that name is one of the table's names; and over the draw space `[0, n)` each
name `s` is returned on exactly as many draws as there are entries named `s`,
so each entry is selected with probability exactly `1/n`. -/
theorem uniform_select_correct (items : List Loot) (idx : Nat)
    (hall : ∀ e ∈ items, e.isWeighted = false) (hidx : idx < items.length) :
    pick_random_uniform items idx = .ok ((items.map Loot.name).getD idx "")
    ∧ ((items.map Loot.name).getD idx "") ∈ items.map Loot.name
    ∧ ∀ s : String,
        (List.range items.length).countP
            (fun x => decide (pick_random_uniform items x = .ok s))
          = (items.map Loot.name).countP (fun nm => decide (nm = s)) := by
  refine ⟨pick_uniform_eval items idx hall hidx, ?_,
    fun s => pick_uniform_countP items hall s⟩
  exact getD_mem_of_lt (items.map Loot.name) idx (by simpa using hidx)

/-- C2 witness: on the spec's example table `sword`, `shield`, `potion`,
draw 2 returns `potion`, and `shield` is returned on exactly 1 of 3 draws. -/
theorem uniform_select_correct_witness :
    pick_random_uniform [Loot.unweighted "sword", Loot.unweighted "shield",
      Loot.unweighted "potion"] 2 = .ok "potion"
    ∧ (List.range 3).countP (fun x => decide (pick_random_uniform [Loot.unweighted "sword",
        Loot.unweighted "shield", Loot.unweighted "potion"] x = .ok "shield")) = 1 := by
  have h := uniform_select_correct [Loot.unweighted "sword", Loot.unweighted "shield",
    Loot.unweighted "potion"] 2 (by decide) (by decide)
  exact ⟨h.1, h.2.2 "shield"⟩

/-- C3: parsing fails with the invalid-format-header failure exactly when the
first non-comment readable line exists and is not exactly `Weighted` or
`Uniform` (case-sensitive); and when that line is one of the two keywords,
parsing continues on the remaining lines with the mode set to it and with no
entry contributed by the header line. -/
theorem parse_header_iff (lines : List (Option String)) :
    (parse lines = .panic .invalidFormatHeader ↔
      ∃ (l : String) (rest : List (Option String)),
        firstEff lines = some (l, rest) ∧ l ≠ "Weighted" ∧ l ≠ "Uniform")
    ∧ (∀ (l : String) (rest : List (Option String)),
        firstEff lines = some (l, rest) → (l = "Weighted" ∨ l = "Uniform") →
        parse lines = parseFrom rest l) := by
  unfold parse
  induction lines with
  | nil =>
    refine ⟨⟨fun h => absurd h ?_, ?_⟩, ?_⟩
    · rw [parseFrom_nil]
      intro hh
      exact PResult.noConfusion hh
    · rintro ⟨l, rest, hsome, -, -⟩
      exact Option.noConfusion hsome
    · intro l rest hsome _
      exact Option.noConfusion hsome
  | cons line rest0 ih =>
    cases line with
    | none =>
      rw [parseFrom_none, firstEff_none]
      exact ih
    | some l =>
      by_cases h1 : startsWithHash l = true
      · rw [parseFrom_comment _ _ _ h1, firstEff_comment _ _ h1]
        exact ih
      · have h1f : startsWithHash l = false := by simpa using h1
        rw [firstEff_data _ _ h1f]
        by_cases h2 : l = "Weighted" ∨ l = "Uniform"
        · rw [parseFrom_header _ _ h1f h2]
          have hlne : l ≠ "" := by
            rcases h2 with rfl | rfl <;> decide
          refine ⟨⟨fun h => absurd h (parseFrom_no_header_panic rest0 l hlne), ?_⟩, ?_⟩
          · rintro ⟨l2, rest2, hsome, hW2, hU2⟩
            injection hsome with hpair
            injection hpair with hl hr
            subst hl
            rcases h2 with h2 | h2
            · exact absurd h2 hW2
            · exact absurd h2 hU2
          · intro l2 rest2 hsome _
            injection hsome with hpair
            injection hpair with hl hr
            subst hl
            subst hr
            rfl
        · rw [parseFrom_header_bad _ _ h1f h2]
          have hW2 : l ≠ "Weighted" := fun he => h2 (Or.inl he)
          have hU2 : l ≠ "Uniform" := fun he => h2 (Or.inr he)
          refine ⟨⟨fun _ => ⟨l, rest0, rfl, hW2, hU2⟩, fun _ => rfl⟩, ?_⟩
          intro l2 rest2 hsome hor
          injection hsome with hpair
          injection hpair with hl hr
          subst hl
          exact absurd hor h2

/-- C3 witness: a commented line followed by the header `Unweighted` (the
very word the source's own panic message suggests) fails as invalid header;
a `Uniform` header sets the mode and contributes no entry. -/
theorem parse_header_iff_witness :
    parse [some "# note", some "Unweighted"] = .panic .invalidFormatHeader
    ∧ parse [some "Uniform", some "x"] = parseFrom [some "x"] "Uniform" := by
  refine ⟨(parse_header_iff [some "# note", some "Unweighted"]).1.mpr
      ⟨"Unweighted", [], by decide, by decide, by decide⟩,
    (parse_header_iff [some "Uniform", some "x"]).2 "Uniform" [some "x"] (by decide)
      (Or.inr rfl)⟩

/-- C4 counterexample: on the spec's own example input `Weighted`,
`sword-10`, the malformed weighted line is rejected by a panic (process
abort), not by returning the recoverable `MalformedWeightedLine` error value
the claim describes. -/
theorem malformed_weighted_line_panic_counterexample :
    parse [some "Weighted", some "sword-10"] ≠ .err .malformedWeightedLine
    ∧ parse [some "Weighted", some "sword-10"] = .panic .malformedWeightedLine := by
  exact ⟨by decide, by decide⟩

/-- C4 (amended): in Weighted mode, a non-comment data line that splits on
the literal `!!` into a token count other than exactly two aborts the whole
parse with the malformed-weighted-line panic: no table (partial or
otherwise) is returned, and no recoverable error value either — the source
signals the failure by panicking. -/
theorem malformed_weighted_line_fatal (l : String) (rest : List (Option String))
    (h1 : startsWithHash l = false) (h2 : (splitBangBang l).length ≠ 2) :
    parseFrom (some l :: rest) "Weighted" = .panic .malformedWeightedLine
    ∧ (∀ t : LootTable, parseFrom (some l :: rest) "Weighted" ≠ .ok t)
    ∧ (∀ e : ParseError, parseFrom (some l :: rest) "Weighted" ≠ .err e) := by
  have h := weighted_malformed l rest h1 h2
  refine ⟨h, fun t ht => ?_, fun e => parseFrom_never_err _ _ e⟩
  rw [h] at ht
  exact PResult.noConfusion ht

/-- C4 witness: the malformed line `sword-10` (no `!!`) in Weighted mode. -/
theorem malformed_weighted_line_fatal_witness :
    parseFrom [some "sword-10"] "Weighted" = .panic .malformedWeightedLine := by
  exact (malformed_weighted_line_fatal "sword-10" [] (by decide) (by decide)).1

/-- C5 counterexample: a weighted line whose right-hand token is non-integer
(`sword!!abc`) or negative (`shield!!-3`) is rejected by a panic (the
`unwrap` on `from_str`), i.e. the process aborts — not by returning the
recoverable `InvalidWeight` error value the claim describes. -/
theorem invalid_weight_panic_counterexample :
    parse [some "Weighted", some "sword!!abc"] ≠ .err .invalidWeight
    ∧ parse [some "Weighted", some "sword!!abc"] = .panic .invalidWeight
    ∧ parse [some "Weighted", some "shield!!-3"] = .panic .invalidWeight := by
  exact ⟨by decide, by decide, by decide⟩

/-- C5 (amended): in Weighted mode, a non-comment data line that splits into
exactly two `!!`-tokens whose right-hand token does not parse as a `u32`
(non-integer text, a negative number, or an out-of-range value) aborts the
whole parse with the invalid-weight panic: no table and no recoverable error
value is returned — the source signals the failure by panicking. -/
theorem invalid_weight_fatal (l : String) (rest : List (Option String))
    (h1 : startsWithHash l = false) (h2 : (splitBangBang l).length = 2)
    (h3 : parseU32 ((splitBangBang l).getD 1 "") = none) :
    parseFrom (some l :: rest) "Weighted" = .panic .invalidWeight
    ∧ (∀ t : LootTable, parseFrom (some l :: rest) "Weighted" ≠ .ok t)
    ∧ (∀ e : ParseError, parseFrom (some l :: rest) "Weighted" ≠ .err e) := by
  have h := weighted_invalid_weight l rest h1 h2 h3
  refine ⟨h, fun t ht => ?_, fun e => parseFrom_never_err _ _ e⟩
  rw [h] at ht
  exact PResult.noConfusion ht

/-- C5 witness: the negative weight `gem!!-5` in Weighted mode, with a valid
line after it that is never reached. -/
theorem invalid_weight_fatal_witness :
    parseFrom [some "gem!!-5", some "a!!1"] "Weighted" = .panic .invalidWeight := by
  exact (invalid_weight_fatal "gem!!-5" [some "a!!1"] (by decide) (by decide) (by decide)).1

/-- C6 counterexample: selection on an empty table does not return the
recoverable `EmptyTable` error value the claim describes; it panics in both
modes (rand's empty-range panic in Uniform mode, the `unwrap` on
`WeightedIndex::new`'s `NoItem` error in Weighted mode). -/
theorem empty_table_panic_counterexample :
    pick_random_uniform [] 0 ≠ .err .emptyTable
    ∧ pick_random_weighted [] 0 ≠ .err .emptyTable
    ∧ pick_random_uniform [] 0 = .panic .emptyRange
    ∧ pick_random_weighted [] 0 = .panic .noItem := by
  exact ⟨by decide, by decide, by decide, by decide⟩

/-- C6 (amended): selection on an empty table fails in both modes for every
draw, but by panicking — the empty-range panic in Uniform mode and the
`NoItem` unwrap panic in Weighted mode — not with a recoverable `EmptyTable`
value; and an input with only comments and a valid header does parse to an
empty table. -/
theorem empty_table_select_panics :
    (∀ idx : Nat, pick_random_uniform [] idx = .panic .emptyRange)
    ∧ (∀ x : Nat, pick_random_weighted [] x = .panic .noItem)
    ∧ parse [some "# header only", some "Uniform"] = .ok ⟨"Uniform", []⟩ := by
  exact ⟨fun idx => rfl, fun x => rfl, by decide⟩

/-- C7 counterexample: on the spec's example `Weighted`, `sword!!0`,
`shield!!0` (which parses fine), selection does not return the recoverable
`AllZeroWeights` error value the claim describes: it panics (the `unwrap` on
`WeightedIndex::new`'s `AllWeightsZero` error), i.e. the process aborts. -/
theorem all_zero_weights_panic_counterexample :
    parse [some "Weighted", some "sword!!0", some "shield!!0"]
        = .ok ⟨"Weighted", [.weighted "sword" 0, .weighted "shield" 0]⟩
    ∧ pick_random_weighted [.weighted "sword" 0, .weighted "shield" 0] 0
        ≠ .err .allZeroWeights
    ∧ pick_random_weighted [.weighted "sword" 0, .weighted "shield" 0] 0
        = .panic .allZeroWeights := by
  exact ⟨by decide, by decide, by decide⟩

/-- C7 (amended): for every non-empty Weighted-mode table in which every
weight is zero, selection fails on every draw with the all-zero-weights
condition — detected as such, not as a division by zero — but delivered as an
unwrap panic, never as the recoverable `AllZeroWeights` error value. -/
theorem all_zero_weights_select_panics (items : List Loot) (pairs : List (String × Nat))
    (hc : collectWeighted items = some pairs) (hne : pairs ≠ [])
    (hz : ∀ p ∈ pairs, p.2 = 0) :
    ∀ x : Nat, pick_random_weighted items x = .panic .allZeroWeights
      ∧ pick_random_weighted items x ≠ .err .allZeroWeights := by
  intro x
  have h := pick_weighted_all_zero items pairs x hc hne hz
  refine ⟨h, fun he => ?_⟩
  rw [h] at he
  exact SResult.noConfusion he

/-- C7 witness: the spec's all-zero table at draw 5. -/
theorem all_zero_weights_select_panics_witness :
    pick_random_weighted [Loot.weighted "sword" 0, Loot.weighted "shield" 0] 5
      = .panic .allZeroWeights := by
  exact (all_zero_weights_select_panics [Loot.weighted "sword" 0, Loot.weighted "shield" 0]
    [("sword", 0), ("shield", 0)] rfl (by decide) (by decide) 5).1

/-- C8: every table produced by a successful parse is homogeneous in its
declared mode — under `Weighted` every entry is a `WeightedLoot` record,
under `Uniform` every entry is a bare name — so the failed-downcast panic
branches of the two selection functions are unreachable on parse-produced
tables: the Weighted downcast loop succeeds on all entries, and the Uniform
selector never hits its downcast panic at any index. -/
theorem parse_tables_homogeneous (lines : List (Option String)) (t : LootTable)
    (h : parse lines = .ok t) :
    (t.format = "Weighted" → ∀ e ∈ t.entries, e.isWeighted = true)
    ∧ (t.format = "Uniform" → ∀ e ∈ t.entries, e.isWeighted = false)
    ∧ (t.format = "Weighted" →
        collectWeighted t.entries = some (t.entries.map (fun e => (e.name, e.weight))))
    ∧ (t.format = "Uniform" → ∀ idx : Nat,
        pick_random_uniform t.entries idx ≠ .panic .downcastString) := by
  have hh := parseFrom_homogeneous lines "" t h
  refine ⟨hh.1, hh.2, fun hf => collectWeighted_of_all _ (hh.1 hf), fun hf idx hcon => ?_⟩
  unfold pick_random_uniform at hcon
  by_cases he : t.entries.isEmpty = true
  · rw [if_pos he] at hcon
    injection hcon with hp
    exact SelectPanic.noConfusion hp
  · rw [if_neg he] at hcon
    cases hg : t.entries.get? idx with
    | none =>
      rw [hg] at hcon
      injection hcon with hp
      exact SelectPanic.noConfusion hp
    | some e =>
      rw [hg] at hcon
      cases e with
      | unweighted nm => exact SResult.noConfusion hcon
      | weighted nm w =>
        have hmem : Loot.weighted nm w ∈ t.entries := List.get?_mem hg
        have hw := hh.2 hf _ hmem
        simp [Loot.isWeighted] at hw

/-- C8 witness: the parse of `Weighted`, `gem!!3` yields a homogeneous table
whose downcast loop succeeds. -/
theorem parse_tables_homogeneous_witness :
    collectWeighted [Loot.weighted "gem" 3] = some [("gem", 3)] := by
  exact (parse_tables_homogeneous [some "Weighted", some "gem!!3"]
    ⟨"Weighted", [Loot.weighted "gem" 3]⟩ (by decide)).2.2.1 rfl

/-- C9: parsing any line sequence gives exactly the same result as parsing
only its readable lines — unreadable (I/O-error) lines are skipped, the
table is built best-effort from what is readable — while a structurally
invalid readable line (here, a malformed weighted line) remains fatal to the
whole parse regardless of what follows. -/
theorem parse_skips_unreadable_lines :
    (∀ lines : List (Option String), parse lines = parse (lines.filter Option.isSome))
    ∧ (∀ (l : String) (rest : List (Option String)),
        startsWithHash l = false → (splitBangBang l).length ≠ 2 →
        parseFrom (some l :: rest) "Weighted" = .panic .malformedWeightedLine) :=
  ⟨fun lines => parseFrom_filter lines "", fun l rest h1 h2 => weighted_malformed l rest h1 h2⟩

/-- C9 witness: an unreadable line between two readable ones is skipped, and
a three-token weighted line is fatal even with a valid line after it. -/
theorem parse_skips_unreadable_lines_witness :
    parse [some "Uniform", none, some "a"] = parse [some "Uniform", some "a"]
    ∧ parseFrom [some "x!!y!!z", some "a!!1"] "Weighted" = .panic .malformedWeightedLine := by
  exact ⟨parse_skips_unreadable_lines.1 [some "Uniform", none, some "a"],
    parse_skips_unreadable_lines.2 "x!!y!!z" [some "a!!1"] (by decide) (by decide)⟩

/-- C10: blank data lines are not skipped: in Uniform mode an empty line
after the header contributes an entry whose name is the empty string, which
is selectable like any other entry, while in Weighted mode the same empty
line splits on `!!` into one token and is a fatal malformed-weighted-line
failure. -/
theorem blank_line_handling :
    (∀ (rest : List (Option String)) (t : LootTable), parseFrom rest "Uniform" = .ok t →
        parseFrom (some "" :: rest) "Uniform" = .ok ⟨t.format, .unweighted "" :: t.entries⟩)
    ∧ (∀ rest : List (Option String),
        parseFrom (some "" :: rest) "Weighted" = .panic .malformedWeightedLine)
    ∧ parse [some "Uniform", some ""] = .ok ⟨"Uniform", [.unweighted ""]⟩
    ∧ pick_random_uniform [.unweighted ""] 0 = .ok ""
    ∧ parse [some "Weighted", some ""] = .panic .malformedWeightedLine := by
  refine ⟨fun rest t h => ?_, fun rest => weighted_malformed "" rest (by decide) (by decide),
    by decide, by decide, by decide⟩
  rw [parseFrom_uniform_step "" rest (by decide), h]

/-- C10 witness: an empty line in Uniform mode yields the empty-string
entry. -/
theorem blank_line_handling_witness :
    parseFrom [some ""] "Uniform" = .ok ⟨"Uniform", [Loot.unweighted ""]⟩ := by
  exact blank_line_handling.1 [] ⟨"Uniform", []⟩ rfl
